import Mathlib

/-!
Verification of the coupling and adaptivity orchestration of the CBC.Solve
FSI solver. The definitions below are shallow embeddings of the Python
source files `fsisolver.py`, `primalsolver.py` and `subproblems.py`:
numbers are modelled by `ℚ`, the external subproblem solvers and the error
estimator are abstract function parameters, and the observable actions of
the outer adaptive loop (solves, refinements, mesh persistence) are
recorded in an explicit event log.
-/

namespace FSI

/-! ## Coupling fixed-point loop (primalsolver.py, lines 94-166)

The inner Gauss-Seidel loop of `solve_primal` runs `for iter in
range(maxiter)`.  Each pass solves the fluid, structure and mesh
subproblems in order (abstracted here as one state-transformer `stepAll`
returning the new internal state together with the structure displacement
`U_S`), computes `increment = norm(U_S0 - U_S)`, converges when
`increment < itertol`, and raises a `RuntimeError` when the last allowed
iteration (`iter == maxiter - 1`) still fails the test. -/

/-- Abstract interface to the three subproblem solvers and the vector
operations used by the coupling loop: `stepAll` performs one Gauss-Seidel
sweep (F.step, stress transfer, S.step, displacement transfer, M.step,
mesh transfer) and returns the updated internal state together with the
new structure displacement; `sub` and `norm` are the vector subtraction
(`axpy(-1, ...)`) and the norm used for the increment. -/
structure CouplingOracle (σ V : Type) where
  stepAll : σ → σ × V
  sub : V → V → V
  norm : V → ℚ

/-- Outcome of the coupling loop: convergence at a 1-based iteration
count, the fatal `RuntimeError` carrying the iteration count, or falling
through an empty `range(maxiter)` (only possible for `maxiter = 0`). -/
inductive CouplingResult (σ V : Type) where
  | converged (s : σ) (uS : V) (iters : ℕ)
  | failed (iters : ℕ)
  | fellThrough (s : σ) (uS0 : V)
deriving DecidableEq

/-- Body of `for iter in range(maxiter)` from `solve_primal`, recursing
over the remaining list of iteration indices.  `u0` is the running
snapshot `U_S0` of the previous structure displacement. -/
def couplingGo {σ V : Type} (O : CouplingOracle σ V) (itertol : ℚ)
    (maxiter : ℕ) : List ℕ → σ → V → CouplingResult σ V
  | [], s, u0 => .fellThrough s u0
  | iter :: rest, s, u0 =>
    let su := O.stepAll s
    let increment := O.norm (O.sub u0 su.2)
    if increment < itertol then .converged su.1 su.2 (iter + 1)
    else if iter = maxiter - 1 then .failed maxiter
    else couplingGo O itertol maxiter rest su.1 su.2

/-- The coupling fixed-point loop of one time step
(`for iter in range(maxiter)` in `solve_primal`). -/
def couplingLoop {σ V : Type} (O : CouplingOracle σ V) (itertol : ℚ)
    (maxiter : ℕ) (s : σ) (u0 : V) : CouplingResult σ V :=
  couplingGo O itertol maxiter (List.range maxiter) s u0

/-- Trajectory of (internal state, structure displacement snapshot) pairs
produced by repeated Gauss-Seidel sweeps from an initial configuration. -/
def couplingTraj {σ V : Type} (O : CouplingOracle σ V) (s0 : σ) (u0 : V) :
    ℕ → σ × V
  | 0 => (s0, u0)
  | n + 1 => O.stepAll (couplingTraj O s0 u0 n).1

lemma couplingTraj_succ {σ V : Type} (O : CouplingOracle σ V) (s0 : σ)
    (u0 : V) (n : ℕ) :
    couplingTraj O s0 u0 (n + 1) = O.stepAll (couplingTraj O s0 u0 n).1 := rfl

lemma range'_cons (k m : ℕ) :
    List.range' k (m + 1) = k :: List.range' (k + 1) m := by
  simp [List.range']

lemma couplingGo_fails_aux {σ V : Type} (O : CouplingOracle σ V)
    (itertol : ℚ) (maxiter : ℕ) (s0 : σ) (u0 : V)
    (hno : ∀ i < maxiter, itertol ≤
      O.norm (O.sub (couplingTraj O s0 u0 i).2 (couplingTraj O s0 u0 (i + 1)).2)) :
    ∀ m, 1 ≤ m → ∀ k, k + m = maxiter →
      couplingGo O itertol maxiter (List.range' k m)
        (couplingTraj O s0 u0 k).1 (couplingTraj O s0 u0 k).2 =
        .failed maxiter := by
  intro m hm
  induction m, hm using Nat.le_induction with
  | base =>
    intro k hk
    have hklt : k < maxiter := by omega
    have hinc := hno k hklt
    rw [range'_cons]
    simp only [couplingGo, ← couplingTraj_succ O s0 u0 k]
    rw [if_neg (not_lt.mpr hinc), if_pos (by omega : k = maxiter - 1)]
  | succ m hm ih =>
    intro k hk
    have hklt : k < maxiter := by omega
    have hinc := hno k hklt
    rw [range'_cons]
    simp only [couplingGo, ← couplingTraj_succ O s0 u0 k]
    rw [if_neg (not_lt.mpr hinc), if_neg (by omega : ¬ k = maxiter - 1)]
    exact ih (k + 1) (by omega)

/-- C2: if the increment never drops below `itertol` along the coupling
trajectory, the fixed-point loop of `solve_primal` raises its
`RuntimeError` exactly when the iteration count reaches
`maximum_iterations` — the run fails, with no retry and no fallback. -/
theorem coupling_fails_at_maxiter {σ V : Type} (O : CouplingOracle σ V)
    (itertol : ℚ) (maxiter : ℕ) (s0 : σ) (u0 : V)
    (hmax : 1 ≤ maxiter)
    (hno : ∀ i < maxiter, itertol ≤
      O.norm (O.sub (couplingTraj O s0 u0 i).2 (couplingTraj O s0 u0 (i + 1)).2)) :
    couplingLoop O itertol maxiter s0 u0 = .failed maxiter := by
  have h := couplingGo_fails_aux O itertol maxiter s0 u0 hno maxiter hmax 0
    (by omega)
  rw [couplingLoop, List.range_eq_range']
  exact h

/-- Absolute value on `ℚ` written as an executable conditional, used as
the norm of the concrete one-dimensional test oracles. -/
def ratAbs (x : ℚ) : ℚ := if x < 0 then -x else x

/-- Oscillating structure adapter: the displacement alternates between
the two distinct values 0 and 1 on every sweep. -/
def oscOracle : CouplingOracle Bool ℚ where
  stepAll := fun b => (!b, if b then 0 else 1)
  sub := fun x y => x - y
  norm := ratAbs

/-- Witness for C2: with the oscillating adapter, `itertol = 1/2` and
`maximum_iterations = 3`, the loop fails exactly at iteration 3. -/
theorem coupling_fails_at_maxiter_app :
    couplingLoop oscOracle (1/2) 3 false 0 = .failed 3 :=
  coupling_fails_at_maxiter oscOracle (1/2) 3 false 0 (by norm_num)
    (by intro i hi
        interval_cases i <;> norm_num [couplingTraj, oscOracle, ratAbs])

/-- C8: if the structure solver returns a displacement identical to the
previous committed value (the snapshot `U_S0`), the increment is zero
and the coupling loop converges after exactly 1 iteration. -/
theorem coupling_stub_converges {σ V : Type} (O : CouplingOracle σ V)
    (itertol : ℚ) (maxiter : ℕ) (s0 : σ) (u0 : V)
    (hstub : O.stepAll s0 = (s0, u0))
    (hnorm : O.norm (O.sub u0 u0) = 0)
    (htol : 0 < itertol)
    (hmax : 1 ≤ maxiter) :
    couplingLoop O itertol maxiter s0 u0 = .converged s0 u0 1 := by
  obtain ⟨m, rfl⟩ : ∃ m, maxiter = m + 1 :=
    ⟨maxiter - 1, by omega⟩
  rw [couplingLoop, List.range_succ_eq_map]
  simp only [couplingGo, hstub, hnorm]
  rw [if_pos htol]

/-- No-op stub oracle: every sweep keeps the internal state and returns
the committed displacement 0. -/
def stubOracle : CouplingOracle ℚ ℚ where
  stepAll := fun s => (s, 0)
  sub := fun x y => x - y
  norm := ratAbs

/-- Witness for C8: with no-op stub solvers, snapshot 0, `itertol = 1`
and `maximum_iterations = 5`, the loop converges after exactly 1
iteration. -/
theorem coupling_stub_converges_app :
    couplingLoop stubOracle 1 5 0 0 = .converged 0 0 1 :=
  coupling_stub_converges stubOracle 1 5 0 0 rfl
    (by norm_num [stubOracle, ratAbs]) (by norm_num) (by norm_num)

/-! ## Time-stepping loop of the primal solver (primalsolver.py, lines 72-207)

`solve_primal` initializes `t0 = 0.0`, `t1 = dt`, `at_end = False` and the
goal-functional accumulators `integrated_goal_functional = 0.0`,
`old_goal_functional = 0.0` (the functional is assumed to be 0 at t = 0).
Each converged time step evaluates the goal functional, adds the
trapezoid `0.5 * dt * (old + new)`, commits, breaks if `at_end`, and
otherwise (with `uniform_timestep`) advances
`t0 = t1; t1 = min(t1 + dt, T); dt = t1 - t0; at_end = t1 > T - DOLFIN_EPS`. -/

/-- The DOLFIN epsilon constant used by the `at_end` test
(`dolfin/common/constants.h`). -/
def DOLFIN_EPS : ℚ := 3 / 10 ^ 16

/-- Time-stepping state of `solve_primal`: the current interval
`(t0, t1)`, the step size `dt`, the `at_end` flag, the running
trapezoidal integral `igf` of the goal functional, and the previous
functional value `ogf`. -/
structure TimeState where
  t0 : ℚ
  t1 : ℚ
  dt : ℚ
  at_end : Bool
  igf : ℚ
  ogf : ℚ
deriving DecidableEq, Repr

/-- Initial time-stepping state of `solve_primal`
(`t0 = 0.0; t1 = dt; at_end = False`, both accumulators 0). -/
def initTimeState (dt : ℚ) : TimeState :=
  { t0 := 0, t1 := dt, dt := dt, at_end := false, igf := 0, ogf := 0 }

/-- Goal-functional bookkeeping of one converged time step: evaluate the
functional at `(t0, t1)` and add the trapezoid
`0.5 * dt * (old_goal_functional + goal_functional)`. -/
def evalGoalStep (gf : ℚ → ℚ → ℚ) (s : TimeState) : TimeState :=
  let g := gf s.t0 s.t1
  { s with igf := s.igf + 1 / 2 * s.dt * (s.ogf + g), ogf := g }

/-- The constant time-step update of `solve_primal`
(`t0 = t1; t1 = min(t1 + dt, T); dt = t1 - t0;
at_end = t1 > T - DOLFIN_EPS`), with the epsilon as a parameter. -/
def uniformAdvance (T eps : ℚ) (s : TimeState) : TimeState :=
  let t0 := s.t1
  let t1 := min (s.t1 + s.dt) T
  { s with t0 := t0, t1 := t1, dt := t1 - t0,
           at_end := decide (T - eps < t1) }

/-- The `while True` time-stepping loop of `solve_primal` restricted to
`uniform_timestep = True`, with an explicit fuel bound on the number of
iterations: run a converged step, break if `at_end` was set, otherwise
advance the time interval and continue. -/
def primalLoop (gf : ℚ → ℚ → ℚ) (T eps : ℚ) : ℕ → TimeState → TimeState
  | 0, s => s
  | n + 1, s =>
    let s' := evalGoalStep gf s
    if s'.at_end then s'
    else primalLoop gf T eps n (uniformAdvance T eps s')

lemma evalGoalStep_at_end (gf : ℚ → ℚ → ℚ) (s : TimeState) :
    (evalGoalStep gf s).at_end = s.at_end := rfl

lemma primalLoop_continue (gf : ℚ → ℚ → ℚ) (T eps : ℚ) (n : ℕ)
    (s : TimeState) (hse : s.at_end = false) :
    primalLoop gf T eps (n + 1) s =
      primalLoop gf T eps n (uniformAdvance T eps (evalGoalStep gf s)) := by
  simp [primalLoop, evalGoalStep_at_end, hse]

lemma primalLoop_stop (gf : ℚ → ℚ → ℚ) (T eps : ℚ) (n : ℕ)
    (s : TimeState) (hse : s.at_end = true) :
    primalLoop gf T eps (n + 1) s = evalGoalStep gf s := by
  simp [primalLoop, evalGoalStep_at_end, hse]

lemma primalLoop_goal_aux (gf : ℚ → ℚ → ℚ) (T eps dt v : ℚ)
    (hdt : 0 < dt) (heps : 0 < eps) (hepsdt : eps ≤ dt)
    (hgf : ∀ a b, gf a b = v) :
    ∀ m : ℕ, 1 ≤ m → ∀ f : ℕ, m + 1 ≤ f → ∀ s : TimeState,
      s.dt = dt → s.t1 = T - m * dt → s.at_end = false →
      (primalLoop gf T eps f s).igf =
          s.igf + dt * (s.ogf + v) / 2 + m * dt * v ∧
        (primalLoop gf T eps f s).at_end = true := by
  intro m hm
  induction m, hm using Nat.le_induction with
  | base =>
    intro f hf s hsdt hst1 hse
    obtain ⟨f', rfl⟩ : ∃ f', f = f' + 2 := ⟨f - 2, by omega⟩
    have ht1T : min (s.t1 + s.dt) T = T := by
      rw [hsdt, hst1]
      rw [show T - (1:ℕ) * dt + dt = T by push_cast; ring]
      exact min_self T
    have hend : (T - eps < min (s.t1 + s.dt) T) := by
      rw [ht1T]; linarith
    rw [primalLoop_continue gf T eps (f' + 1) s hse]
    set s1 := uniformAdvance T eps (evalGoalStep gf s) with hs1
    have hs1end : s1.at_end = true := by
      simp only [hs1, uniformAdvance, evalGoalStep]
      simpa using hend
    have hs1dt : s1.dt = dt := by
      simp only [hs1, uniformAdvance, evalGoalStep, ht1T]
      rw [hst1]; push_cast; ring
    have hs1igf : s1.igf = s.igf + dt * (s.ogf + v) / 2 := by
      simp only [hs1, uniformAdvance, evalGoalStep, hgf, hsdt]; ring
    have hs1ogf : s1.ogf = v := by
      simp only [hs1, uniformAdvance, evalGoalStep, hgf]
    rw [primalLoop_stop gf T eps f' s1 hs1end]
    constructor
    · simp only [evalGoalStep, hgf, hs1igf, hs1ogf, hs1dt]
      push_cast; ring
    · simp [evalGoalStep_at_end, hs1end]
  | succ m hm ih =>
    intro f hf s hsdt hst1 hse
    obtain ⟨f', rfl⟩ : ∃ f', f = f' + 1 := ⟨f - 1, by omega⟩
    have hmq : (1:ℚ) ≤ (m:ℚ) := by exact_mod_cast hm
    have hmdt : dt ≤ (m:ℚ) * dt := by nlinarith
    have ht1T : min (s.t1 + s.dt) T = T - m * dt := by
      rw [hsdt, hst1]
      rw [show T - ((m + 1 : ℕ):ℚ) * dt + dt = T - (m:ℚ) * dt by
        push_cast; ring]
      exact min_eq_left (by linarith)
    have hnoend : ¬ (T - eps < min (s.t1 + s.dt) T) := by
      rw [ht1T]
      have : eps ≤ (m:ℚ) * dt := le_trans hepsdt hmdt
      linarith
    rw [primalLoop_continue gf T eps f' s hse]
    set s1 := uniformAdvance T eps (evalGoalStep gf s) with hs1
    have hs1end : s1.at_end = false := by
      simp only [hs1, uniformAdvance, evalGoalStep]
      simpa using hnoend
    have hs1dt : s1.dt = dt := by
      simp only [hs1, uniformAdvance, evalGoalStep, ht1T]
      rw [hst1]; push_cast; ring
    have hs1t1 : s1.t1 = T - m * dt := by
      simp only [hs1, uniformAdvance, evalGoalStep, ht1T]
    have hs1igf : s1.igf = s.igf + dt * (s.ogf + v) / 2 := by
      simp only [hs1, uniformAdvance, evalGoalStep, hgf, hsdt]; ring
    have hs1ogf : s1.ogf = v := by
      simp only [hs1, uniformAdvance, evalGoalStep, hgf]
    obtain ⟨h1, h2⟩ := ih f' (by omega) s1 hs1dt hs1t1 hs1end
    refine ⟨?_, h2⟩
    rw [h1, hs1igf, hs1ogf]
    push_cast; ring

/-- C3 counterexample: with a goal functional constantly 2, one uniform
step of size `dt = 1` over `T = 1` (so `v * T = 2`), the accumulated
trapezoidal integral of `solve_primal` is 1, not `v * T`: the first
trapezoid averages against the assumed value 0 at `t = 0`. -/
theorem goal_integral_cex :
    (primalLoop (fun _ _ => 2) 1 DOLFIN_EPS 2 (initTimeState 1)).igf ≠
      2 * 1 := by
  have hs1 : uniformAdvance 1 DOLFIN_EPS
      (evalGoalStep (fun _ _ => 2) (initTimeState 1)) =
      ⟨1, 1, 0, true, 1, 2⟩ := by
    simp only [uniformAdvance, evalGoalStep, initTimeState, TimeState.mk.injEq]
    norm_num [DOLFIN_EPS, min_def]
  rw [show (2:ℕ) = 1 + 1 from rfl,
    primalLoop_continue _ _ _ _ _ rfl, hs1,
    primalLoop_stop _ _ _ _ _ rfl]
  norm_num [evalGoalStep]

/-- C3 (amended): for a constant functional value `v` over `n` uniform
steps of size `dt` with `T = n * dt`, the accumulated trapezoidal
integral of `solve_primal` (initialized assuming the functional is 0 at
`t = 0`) equals `v * (T - dt / 2)`, and the loop has reached `at_end`. -/
theorem goal_integral_trapezoid (gf : ℚ → ℚ → ℚ) (n : ℕ) (dt eps v T : ℚ)
    (hn : 1 ≤ n) (hdt : 0 < dt) (heps : 0 < eps) (hepsdt : eps ≤ dt)
    (hT : T = n * dt) (hgf : ∀ a b, gf a b = v) :
    (primalLoop gf T eps (n + 1) (initTimeState dt)).igf =
        v * (T - dt / 2) ∧
      (primalLoop gf T eps (n + 1) (initTimeState dt)).at_end = true := by
  rcases eq_or_lt_of_le hn with h1 | h2
  · -- n = 1: the loop takes the final step and one degenerate dt = 0 step
    subst h1
    have hT1 : T = dt := by rw [hT]; push_cast; ring
    have hs1 : uniformAdvance T eps
        (evalGoalStep gf (initTimeState dt)) =
        ⟨dt, dt, 0, true, dt * v / 2, v⟩ := by
      simp only [uniformAdvance, evalGoalStep, initTimeState, hgf,
        TimeState.mk.injEq, hT1]
      refine ⟨trivial, ?_, ?_, ?_, by ring, trivial⟩
      · exact min_eq_right (by linarith)
      · rw [min_eq_right (by linarith)]; ring
      · rw [min_eq_right (by linarith)]
        simp only [decide_eq_true_eq]
        linarith
    rw [show (1:ℕ) + 1 = 1 + 1 from rfl,
      primalLoop_continue _ _ _ _ _ rfl, hs1,
      primalLoop_stop _ _ _ _ _ rfl]
    constructor
    · simp only [evalGoalStep, hgf, hT1]
      ring
    · rfl
  · -- n ≥ 2: apply the accumulator formula with n - 1 remaining advances
    have hm : 1 ≤ n - 1 := by omega
    have hcast : ((n - 1 : ℕ) : ℚ) = (n : ℚ) - 1 := by
      have : (1:ℕ) ≤ n := hn
      push_cast [this]; ring
    have hst1 : (initTimeState dt).t1 = T - (n - 1 : ℕ) * dt := by
      simp only [initTimeState, hcast, hT]; ring
    obtain ⟨h1, hend⟩ := primalLoop_goal_aux gf T eps dt v hdt heps hepsdt
      hgf (n - 1) hm (n + 1) (by omega) (initTimeState dt) rfl hst1 rfl
    refine ⟨?_, hend⟩
    rw [h1]
    simp only [initTimeState, hcast, hT]
    ring

/-- Witness for C3 (amended): 2 steps of size 1/2 with constant value 3
accumulate exactly 3 * (1 - 1/4). -/
theorem goal_integral_trapezoid_app :
    (primalLoop (fun _ _ => 3) 1 DOLFIN_EPS 3 (initTimeState (1/2))).igf =
        3 * (1 - (1/2) / 2) ∧
      (primalLoop (fun _ _ => 3) 1 DOLFIN_EPS 3
        (initTimeState (1/2))).at_end = true :=
  goal_integral_trapezoid (fun _ _ => 3) 2 (1/2) DOLFIN_EPS 3 1
    (by norm_num) (by norm_num) (by norm_num [DOLFIN_EPS])
    (by norm_num [DOLFIN_EPS]) (by norm_num) (fun _ _ => rfl)

/-- C6 counterexample: a uniform run with `T = 1`,
`dt = (1 - DOLFIN_EPS) / 2 > 0` reaches `t1 = T - DOLFIN_EPS` exactly on
its second record, where `t1 ≥ T - DOLFIN_EPS` holds but `at_end` is
still false: the code tests `t1 > T - DOLFIN_EPS` strictly. -/
theorem at_end_boundary_cex :
    (0:ℚ) < (1 - DOLFIN_EPS) / 2 ∧
    1 - DOLFIN_EPS ≤ (uniformAdvance 1 DOLFIN_EPS
      ⟨0, (1 - DOLFIN_EPS) / 2, (1 - DOLFIN_EPS) / 2, false, 0, 0⟩).t1 ∧
    (uniformAdvance 1 DOLFIN_EPS
      ⟨0, (1 - DOLFIN_EPS) / 2, (1 - DOLFIN_EPS) / 2, false, 0, 0⟩).at_end
      = false := by
  refine ⟨by norm_num [DOLFIN_EPS], ?_, ?_⟩ <;>
    norm_num [uniformAdvance, DOLFIN_EPS, min_def]

/-- C6 (amended): one constant-size time step from a mid-run record
(`t1 ≤ T - eps`, positive step, `t0 < t1`) moves the interval start to
the old `t1`, strictly increases `t1`, keeps `t0 < t1 ≤ T`, sets
`dt = t1 - t0` and the new interval end `min(old t1 + dt, T)`, and sets
`at_end` exactly when the new `t1` strictly exceeds `T - eps`. -/
theorem uniform_step_invariant (T eps : ℚ) (s : TimeState)
    (heps : 0 < eps) (hnotend : s.t1 ≤ T - eps) (hdt : 0 < s.dt)
    (h01 : s.t0 < s.t1) :
    (uniformAdvance T eps s).t0 = s.t1 ∧
    s.t1 < (uniformAdvance T eps s).t1 ∧
    (uniformAdvance T eps s).t1 ≤ T ∧
    (uniformAdvance T eps s).t0 < (uniformAdvance T eps s).t1 ∧
    (uniformAdvance T eps s).dt =
      (uniformAdvance T eps s).t1 - (uniformAdvance T eps s).t0 ∧
    (uniformAdvance T eps s).t1 = min (s.t1 + s.dt) T ∧
    ((uniformAdvance T eps s).at_end = true ↔
      T - eps < (uniformAdvance T eps s).t1) := by
  have hlt : s.t1 < min (s.t1 + s.dt) T :=
    lt_min (by linarith) (by linarith)
  refine ⟨rfl, hlt, min_le_right _ _, hlt, rfl, rfl, ?_⟩
  simp only [uniformAdvance, decide_eq_true_eq]

/-- Witness for C6 (amended): the invariant instantiated at the first
record of a run with `T = 1`, `dt = 1/2` and the DOLFIN epsilon. -/
theorem uniform_step_invariant_app :
    (uniformAdvance 1 DOLFIN_EPS ⟨0, 1/2, 1/2, false, 0, 0⟩).t0 = 1/2 ∧
    (1/2 : ℚ) < (uniformAdvance 1 DOLFIN_EPS ⟨0, 1/2, 1/2, false, 0, 0⟩).t1 ∧
    (uniformAdvance 1 DOLFIN_EPS ⟨0, 1/2, 1/2, false, 0, 0⟩).t1 ≤ 1 ∧
    (uniformAdvance 1 DOLFIN_EPS ⟨0, 1/2, 1/2, false, 0, 0⟩).t0 <
      (uniformAdvance 1 DOLFIN_EPS ⟨0, 1/2, 1/2, false, 0, 0⟩).t1 ∧
    (uniformAdvance 1 DOLFIN_EPS ⟨0, 1/2, 1/2, false, 0, 0⟩).dt =
      (uniformAdvance 1 DOLFIN_EPS ⟨0, 1/2, 1/2, false, 0, 0⟩).t1 -
        (uniformAdvance 1 DOLFIN_EPS ⟨0, 1/2, 1/2, false, 0, 0⟩).t0 ∧
    (uniformAdvance 1 DOLFIN_EPS ⟨0, 1/2, 1/2, false, 0, 0⟩).t1 =
      min (1/2 + 1/2) 1 ∧
    ((uniformAdvance 1 DOLFIN_EPS ⟨0, 1/2, 1/2, false, 0, 0⟩).at_end = true ↔
      1 - DOLFIN_EPS <
        (uniformAdvance 1 DOLFIN_EPS ⟨0, 1/2, 1/2, false, 0, 0⟩).t1) :=
  uniform_step_invariant 1 DOLFIN_EPS ⟨0, 1/2, 1/2, false, 0, 0⟩
    (by norm_num [DOLFIN_EPS]) (by norm_num [DOLFIN_EPS]) (by norm_num)
    (by norm_num)

/-! ## Adaptive outer loop (fsisolver.py, `FSISolver.solve`)

The `while True` loop optionally solves the primal problem, optionally
solves the dual problem, optionally estimates the error (otherwise
`error = 0.0`), breaks when `error <= tolerance`, and otherwise either
freezes the current mesh (`E_h <= w_h * tolerance`) or refines it
(uniformly when `problem.convergence_test() and not
problem.estimate_error()`, else by indicators, followed by
`problem.init_meshes`), and finally persists the mesh with `save_mesh`.
Meshes are modelled by version numbers, collaborator computations by
abstract functions, and the observable calls by an event log. -/

/-- Mesh identity, modelled as a version number. -/
abbrev Mesh := ℕ

/-- Opaque token standing for the per-cell error indicators. -/
abbrev Indicators := ℕ

/-- Result quadruple of `estimate_error`. -/
structure ErrorEstimate where
  error : ℚ
  indicators : Indicators
  ST : ℚ
  E_h : ℚ
deriving DecidableEq, Repr

/-- Parameters of `FSISolver.solve` that drive the outer loop. -/
structure OuterParams where
  tolerance : ℚ
  w_h : ℚ
  solve_primal : Bool
  solve_dual : Bool
  estimate_error : Bool
deriving DecidableEq, Repr

/-- Collaborators of the outer loop: `primal` is the goal functional
returned by `solve_primal` on a given mesh with a given stability
factor, `estimate` is `estimate_error`, `refineUniform` is DOLFIN's
uniform `refine`, `refineByInd` is the indicator-driven `refine_mesh`,
and the two booleans are `problem.convergence_test()` and
`problem.estimate_error()`. -/
structure OuterEnv where
  primal : Mesh → ℚ → ℚ
  estimate : Mesh → ErrorEstimate
  refineUniform : Mesh → Mesh
  refineByInd : Mesh → Indicators → Mesh
  convergence_test : Bool
  prob_estimate_error : Bool

/-- Observable actions of one outer-loop iteration. -/
inductive Event where
  | primalSolve
  | infoNoPrimal
  | dualSolve
  | infoNoDual
  | estimateError
  | infoNoEstimate
  | refineUniform
  | refineByIndicators
  | initMeshes
  | saveMesh
deriving DecidableEq, Repr

/-- Mutable state of the outer loop: the problem mesh, the stability
factor `ST`, the goal functional computed so far, and the last error
estimate (in Python, locals `error, indicators, ST, E_h` survive across
iterations; reading them before any estimate raises `NameError`). -/
structure OuterState where
  mesh : Mesh
  ST : ℚ
  goal : Option ℚ
  est : Option ErrorEstimate
deriving DecidableEq, Repr

/-- State at the top of `FSISolver.solve`:
`goal_functional = None`, `ST = 1.0`, no estimate yet. -/
def outerInit (m0 : Mesh) : OuterState :=
  { mesh := m0, ST := 1, goal := none, est := none }

/-- Result of one iteration of the `while True` loop: `done` when the
error check breaks out of the loop, `next` when the loop continues with
a new state, `nameError` when Python would read the never-assigned
`E_h`. -/
inductive IterResult where
  | done (goal : Option ℚ) (log : List Event)
  | next (s : OuterState) (log : List Event)
  | nameError (log : List Event)
deriving DecidableEq, Repr

/-- Goal functional after the optional primal solve of one iteration. -/
def iterGoal (env : OuterEnv) (p : OuterParams) (s : OuterState) :
    Option ℚ :=
  if p.solve_primal then some (env.primal s.mesh s.ST) else s.goal

/-- Error estimate available after the optional `estimate_error` call. -/
def iterEst (env : OuterEnv) (p : OuterParams) (s : OuterState) :
    Option ErrorEstimate :=
  if p.estimate_error then some (env.estimate s.mesh) else s.est

/-- Stability factor after the optional `estimate_error` call. -/
def iterST (env : OuterEnv) (p : OuterParams) (s : OuterState) : ℚ :=
  if p.estimate_error then (env.estimate s.mesh).ST else s.ST

/-- The error value used by the convergence check: the estimate when
`estimate_error` is on, otherwise `0.0`. -/
def errorOf (env : OuterEnv) (p : OuterParams) (s : OuterState) : ℚ :=
  if p.estimate_error then (env.estimate s.mesh).error else 0

/-- Log of the three optional solve/estimate stages of one iteration. -/
def iterLog1 (p : OuterParams) : List Event :=
  (if p.solve_primal then [Event.primalSolve] else [Event.infoNoPrimal]) ++
  [if p.solve_dual then Event.dualSolve else Event.infoNoDual] ++
  [if p.estimate_error then Event.estimateError else Event.infoNoEstimate]

/-- One iteration of the `while True` loop of `FSISolver.solve`. -/
def outerIteration (env : OuterEnv) (p : OuterParams) (s : OuterState) :
    IterResult :=
  let goal := iterGoal env p s
  let log := iterLog1 p
  if errorOf env p s ≤ p.tolerance then .done goal log
  else
    match iterEst env p s with
    | none => .nameError log
    | some e =>
      if e.E_h ≤ p.w_h * p.tolerance then
        .next ⟨s.mesh, iterST env p s, goal, some e⟩
          (log ++ [Event.saveMesh])
      else
        let uniform := env.convergence_test && !env.prob_estimate_error
        let refined := if uniform then env.refineUniform s.mesh
                       else env.refineByInd s.mesh e.indicators
        .next ⟨refined, iterST env p s, goal, some e⟩
          (log ++ [if uniform then Event.refineUniform
                   else Event.refineByIndicators,
                   Event.initMeshes, Event.saveMesh])

/-- Outcome of the whole adaptive loop: normal return with the goal
functional and the accumulated event log, a Python exception, or fuel
exhaustion (the loop has no iteration cap of its own). -/
inductive OuterOutcome where
  | returns (goal : Option ℚ) (log : List Event)
  | crash (log : List Event)
  | timeout
deriving DecidableEq, Repr

/-- The `while True` loop of `FSISolver.solve`, with an explicit fuel
bound and an accumulator for events already emitted. -/
def outerLoop (env : OuterEnv) (p : OuterParams) :
    ℕ → OuterState → List Event → OuterOutcome
  | 0, _, _ => .timeout
  | n + 1, s, acc =>
    match outerIteration env p s with
    | .done g log => .returns g (acc ++ log)
    | .next s' log => outerLoop env p n s' (acc ++ log)
    | .nameError log => .crash (acc ++ log)

/-- `FSISolver.solve` on an initial mesh: run the adaptive loop from the
initial state with an empty log. -/
def fsiSolve (env : OuterEnv) (p : OuterParams) (fuel : ℕ) (m0 : Mesh) :
    OuterOutcome :=
  outerLoop env p fuel (outerInit m0) []

lemma mem_iterLog1 (p : OuterParams) (e : Event) (he : e ∈ iterLog1 p) :
    e = Event.primalSolve ∨ e = Event.infoNoPrimal ∨
    e = Event.dualSolve ∨ e = Event.infoNoDual ∨
    e = Event.estimateError ∨ e = Event.infoNoEstimate := by
  simp only [iterLog1, List.mem_append, List.mem_singleton] at he
  rcases he with (he | he) | he
  · split at he <;> simp_all
  · split at he <;> simp_all
  · split at he <;> simp_all

lemma saveMesh_not_mem_iterLog1 (p : OuterParams) :
    Event.saveMesh ∉ iterLog1 p := by
  intro h
  rcases mem_iterLog1 p _ h with h | h | h | h | h | h <;> exact absurd h (by simp)

lemma initMeshes_not_mem_iterLog1 (p : OuterParams) :
    Event.initMeshes ∉ iterLog1 p := by
  intro h
  rcases mem_iterLog1 p _ h with h | h | h | h | h | h <;> exact absurd h (by simp)

lemma refineUniform_not_mem_iterLog1 (p : OuterParams) :
    Event.refineUniform ∉ iterLog1 p := by
  intro h
  rcases mem_iterLog1 p _ h with h | h | h | h | h | h <;> exact absurd h (by simp)

lemma refineByIndicators_not_mem_iterLog1 (p : OuterParams) :
    Event.refineByIndicators ∉ iterLog1 p := by
  intro h
  rcases mem_iterLog1 p _ h with h | h | h | h | h | h <;> exact absurd h (by simp)

lemma count_primalSolve_iterLog1 (p : OuterParams)
    (hsp : p.solve_primal = true) :
    (iterLog1 p).count Event.primalSolve = 1 := by
  simp only [iterLog1, hsp]
  rcases p.solve_dual <;> rcases p.estimate_error <;> simp [List.count_cons]

lemma primalSolve_mem_iterLog1 (p : OuterParams)
    (h : Event.primalSolve ∈ iterLog1 p) : p.solve_primal = true := by
  by_contra hsp
  simp only [Bool.not_eq_true] at hsp
  simp only [iterLog1, hsp, List.mem_append, List.mem_singleton] at h
  rcases h with (h | h) | h
  · simp at h
  · split at h <;> simp_all
  · split at h <;> simp_all

lemma estimateError_not_mem_iterLog1 (p : OuterParams)
    (hest : p.estimate_error = false) :
    Event.estimateError ∉ iterLog1 p := by
  intro h
  simp only [iterLog1, hest, List.mem_append, List.mem_singleton] at h
  rcases h with (h | h) | h <;> split at h <;> simp_all

lemma outerLoop_done (env : OuterEnv) (p : OuterParams) (fuel : ℕ)
    (s : OuterState) (acc : List Event) (g : Option ℚ) (log : List Event)
    (h : outerIteration env p s = .done g log) :
    outerLoop env p (fuel + 1) s acc = .returns g (acc ++ log) := by
  simp [outerLoop, h]

lemma outerLoop_next (env : OuterEnv) (p : OuterParams) (fuel : ℕ)
    (s s' : OuterState) (acc log : List Event)
    (h : outerIteration env p s = .next s' log) :
    outerLoop env p (fuel + 1) s acc = outerLoop env p fuel s' (acc ++ log) := by
  simp [outerLoop, h]

lemma outerIteration_done (env : OuterEnv) (p : OuterParams)
    (s : OuterState) (herr : errorOf env p s ≤ p.tolerance) :
    outerIteration env p s = .done (iterGoal env p s) (iterLog1 p) := by
  simp only [outerIteration, if_pos herr]

lemma outerIteration_done_inv (env : OuterEnv) (p : OuterParams)
    (s : OuterState) (g : Option ℚ) (log : List Event)
    (h : outerIteration env p s = .done g log) :
    g = iterGoal env p s ∧ log = iterLog1 p := by
  simp only [outerIteration] at h
  split at h
  · cases h; exact ⟨rfl, rfl⟩
  · split at h
    · cases h
    · split at h <;> cases h

lemma outerIteration_next_inv (env : OuterEnv) (p : OuterParams)
    (s s' : OuterState) (log : List Event)
    (h : outerIteration env p s = .next s' log) :
    s'.goal = iterGoal env p s ∧
      (Event.primalSolve ∈ log → Event.primalSolve ∈ iterLog1 p) := by
  simp only [outerIteration] at h
  split at h
  · cases h
  · split at h
    · cases h
    · split at h
      · cases h
        refine ⟨rfl, fun hm => ?_⟩
        simp only [List.mem_append, List.mem_singleton] at hm
        rcases hm with hm | hm
        · exact hm
        · cases hm
      · cases h
        refine ⟨rfl, fun hm => ?_⟩
        simp only [List.mem_append, List.mem_cons, List.mem_singleton] at hm
        rcases hm with hm | hm | hm | hm
        · exact hm
        · split at hm <;> cases hm
        · cases hm
        · simp at hm

/-- C1: whenever the estimated error satisfies `error <= tolerance` at
the error check, the adaptive loop of `FSISolver.solve` breaks there,
with no refinement and no mesh persisted in that iteration; in
particular with `error <= tolerance` on the first iteration the run
performs exactly one primal solve, returns its goal functional (primal
solve on the initial mesh with `ST = 1.0`), and never invokes
refinement or `save_mesh`. -/
theorem outer_stop_on_convergence (env : OuterEnv) (p : OuterParams)
    (fuel : ℕ) (m0 : Mesh)
    (hsp : p.solve_primal = true)
    (herr : errorOf env p (outerInit m0) ≤ p.tolerance) :
    (∀ s : OuterState, errorOf env p s ≤ p.tolerance →
      ∃ g log, outerIteration env p s = .done g log ∧
        Event.saveMesh ∉ log ∧ Event.initMeshes ∉ log ∧
        Event.refineUniform ∉ log ∧ Event.refineByIndicators ∉ log) ∧
    ∃ log, fsiSolve env p (fuel + 1) m0 =
        .returns (some (env.primal m0 1)) log ∧
      log.count Event.primalSolve = 1 ∧
      Event.refineUniform ∉ log ∧ Event.refineByIndicators ∉ log ∧
      Event.initMeshes ∉ log ∧ Event.saveMesh ∉ log := by
  constructor
  · intro s hs
    exact ⟨_, _, outerIteration_done env p s hs,
      saveMesh_not_mem_iterLog1 p, initMeshes_not_mem_iterLog1 p,
      refineUniform_not_mem_iterLog1 p,
      refineByIndicators_not_mem_iterLog1 p⟩
  · refine ⟨iterLog1 p, ?_, count_primalSolve_iterLog1 p hsp,
      refineUniform_not_mem_iterLog1 p,
      refineByIndicators_not_mem_iterLog1 p,
      initMeshes_not_mem_iterLog1 p, saveMesh_not_mem_iterLog1 p⟩
    rw [fsiSolve, outerLoop_done env p fuel _ _ _ _
      (outerIteration_done env p _ herr), List.nil_append]
    simp [iterGoal, hsp, outerInit]

/-- C7: with error estimation disabled by configuration and a
nonnegative tolerance, the outer loop treats the error as 0, stops at
its first error check without reaching the freeze/refine branch, and
the skipped stage is reported by an informational message rather than
an error. -/
theorem outer_estimate_disabled (env : OuterEnv) (p : OuterParams)
    (fuel : ℕ) (m0 : Mesh)
    (hest : p.estimate_error = false) (htol : 0 ≤ p.tolerance) :
    errorOf env p (outerInit m0) = 0 ∧
    ∃ g log, fsiSolve env p (fuel + 1) m0 = .returns g log ∧
      Event.infoNoEstimate ∈ log ∧ Event.estimateError ∉ log ∧
      Event.saveMesh ∉ log ∧ Event.initMeshes ∉ log ∧
      Event.refineUniform ∉ log ∧ Event.refineByIndicators ∉ log := by
  have herr0 : errorOf env p (outerInit m0) = 0 := by
    simp [errorOf, hest]
  refine ⟨herr0, iterGoal env p (outerInit m0), iterLog1 p, ?_, ?_,
    estimateError_not_mem_iterLog1 p hest,
    saveMesh_not_mem_iterLog1 p, initMeshes_not_mem_iterLog1 p,
    refineUniform_not_mem_iterLog1 p,
    refineByIndicators_not_mem_iterLog1 p⟩
  · rw [fsiSolve, outerLoop_done env p fuel _ _ _ _
      (outerIteration_done env p _ (by rw [herr0]; exact htol)),
      List.nil_append]
  · simp [iterLog1, hest]

/-- C5: with `error > tolerance` but `E_h <= w_h * tolerance`, the
outer loop freezes the mesh: the next iteration reuses the very same
mesh and no refinement operation is invoked. -/
theorem outer_freeze_mesh (env : OuterEnv) (p : OuterParams)
    (s : OuterState)
    (hest : p.estimate_error = true)
    (herr : p.tolerance < (env.estimate s.mesh).error)
    (hEh : (env.estimate s.mesh).E_h ≤ p.w_h * p.tolerance) :
    ∃ s' log, outerIteration env p s = .next s' log ∧ s'.mesh = s.mesh ∧
      Event.refineUniform ∉ log ∧ Event.refineByIndicators ∉ log := by
  have herr' : ¬ errorOf env p s ≤ p.tolerance := by
    simp only [errorOf, hest, if_true]
    exact not_le.mpr herr
  refine ⟨⟨s.mesh, iterST env p s, iterGoal env p s,
    some (env.estimate s.mesh)⟩, iterLog1 p ++ [Event.saveMesh],
    ?_, rfl, ?_, ?_⟩
  · simp only [outerIteration, if_neg herr', iterEst, hest, if_true,
      if_pos hEh]
  · intro h
    simp only [List.mem_append, List.mem_singleton] at h
    rcases h with h | h
    · exact refineUniform_not_mem_iterLog1 p h
    · cases h
  · intro h
    simp only [List.mem_append, List.mem_singleton] at h
    rcases h with h | h
    · exact refineByIndicators_not_mem_iterLog1 p h
    · cases h

/-- C4 (amended): in every non-terminating iteration
(`error > tolerance`), the resulting mesh is persisted by `save_mesh`
as the final action; the three problem meshes are re-initialized
(`init_meshes`) only when the mesh was refined (`E_h > w_h *
tolerance`) — in the freeze branch the existing mesh is reused with no
re-initialization. -/
theorem outer_persist_and_reinit (env : OuterEnv) (p : OuterParams)
    (s : OuterState)
    (hest : p.estimate_error = true)
    (herr : p.tolerance < (env.estimate s.mesh).error) :
    ∃ s' log, outerIteration env p s = .next s' log ∧
      log.getLast? = some Event.saveMesh ∧
      ((env.estimate s.mesh).E_h ≤ p.w_h * p.tolerance →
        Event.initMeshes ∉ log ∧ s'.mesh = s.mesh) ∧
      (p.w_h * p.tolerance < (env.estimate s.mesh).E_h →
        Event.initMeshes ∈ log) := by
  have herr' : ¬ errorOf env p s ≤ p.tolerance := by
    simp only [errorOf, hest, if_true]
    exact not_le.mpr herr
  by_cases hEh : (env.estimate s.mesh).E_h ≤ p.w_h * p.tolerance
  · refine ⟨⟨s.mesh, iterST env p s, iterGoal env p s,
      some (env.estimate s.mesh)⟩, iterLog1 p ++ [Event.saveMesh],
      ?_, List.getLast?_concat _, fun _ => ⟨?_, rfl⟩,
      fun h => absurd hEh (not_le.mpr h)⟩
    · simp only [outerIteration, if_neg herr', iterEst, hest, if_true,
        if_pos hEh]
    · intro h
      simp only [List.mem_append, List.mem_singleton] at h
      rcases h with h | h
      · exact initMeshes_not_mem_iterLog1 p h
      · cases h
  · refine ⟨⟨if env.convergence_test && !env.prob_estimate_error
        then env.refineUniform s.mesh
        else env.refineByInd s.mesh (env.estimate s.mesh).indicators,
      iterST env p s, iterGoal env p s, some (env.estimate s.mesh)⟩,
      iterLog1 p ++ [if env.convergence_test && !env.prob_estimate_error
        then Event.refineUniform else Event.refineByIndicators,
        Event.initMeshes, Event.saveMesh],
      ?_, ?_, fun h => absurd h hEh, fun _ => ?_⟩
    · simp only [outerIteration, if_neg herr', iterEst, hest, if_true,
        if_neg hEh]
    · rw [show iterLog1 p ++ [if env.convergence_test &&
          !env.prob_estimate_error then Event.refineUniform
          else Event.refineByIndicators, Event.initMeshes,
          Event.saveMesh] =
        (iterLog1 p ++ [if env.convergence_test &&
          !env.prob_estimate_error then Event.refineUniform
          else Event.refineByIndicators, Event.initMeshes]) ++
          [Event.saveMesh] by simp]
      exact List.getLast?_concat _
    · simp

lemma outerLoop_no_primal (env : OuterEnv) (p : OuterParams)
    (hsp : p.solve_primal = false) :
    ∀ fuel (s : OuterState) (acc : List Event) (g : Option ℚ)
      (log : List Event), s.goal = none →
      Event.primalSolve ∉ acc →
      outerLoop env p fuel s acc = .returns g log →
      g = none ∧ Event.primalSolve ∉ log := by
  intro fuel
  induction fuel with
  | zero =>
    intro s acc g log _ _ h
    exact absurd h (by simp [outerLoop])
  | succ n ih =>
    intro s acc g log hgoal hacc h
    cases hit : outerIteration env p s with
    | done g' log' =>
      rw [outerLoop_done env p n s acc g' log' hit] at h
      obtain ⟨hg, hl⟩ := outerIteration_done_inv env p s g' log' hit
      cases h
      constructor
      · rw [hg]; simp [iterGoal, hsp, hgoal]
      · intro hm
        rcases List.mem_append.mp hm with hm | hm
        · exact hacc hm
        · rw [hl] at hm
          rw [primalSolve_mem_iterLog1 p hm] at hsp
          cases hsp
    | next s' log' =>
      rw [outerLoop_next env p n s s' acc log' hit] at h
      obtain ⟨hg, hmem⟩ := outerIteration_next_inv env p s s' log' hit
      refine ih s' (acc ++ log') g log ?_ ?_ h
      · rw [hg]; simp [iterGoal, hsp, hgoal]
      · intro hm
        rcases List.mem_append.mp hm with hm | hm
        · exact hacc hm
        · rw [primalSolve_mem_iterLog1 p (hmem hm)] at hsp
          cases hsp
    | nameError log' =>
      simp only [outerLoop, hit] at h
      cases h

/-- C10: in a run configured with `solve_primal = False`, whenever the
adaptive loop terminates normally it returns `None` as the goal
functional — the primal solver is never invoked and the goal functional
is never computed or updated. -/
theorem no_primal_returns_none (env : OuterEnv) (p : OuterParams)
    (fuel : ℕ) (m0 : Mesh) (g : Option ℚ) (log : List Event)
    (hsp : p.solve_primal = false)
    (hrun : fsiSolve env p fuel m0 = .returns g log) :
    g = none ∧ Event.primalSolve ∉ log :=
  outerLoop_no_primal env p hsp fuel (outerInit m0) [] g log rfl
    (by simp) hrun

/-- Projection of the event log of one outer-loop iteration. -/
def iterLogOf : IterResult → List Event
  | .done _ log => log
  | .next _ log => log
  | .nameError log => log

/-- Whether one outer-loop iteration loops back (does not terminate the
adaptive loop). -/
def iterIsNext : IterResult → Bool
  | .next _ _ => true
  | _ => false

/-- Concrete collaborators: a primal solve returning 5 and an error
estimate `(error, indicators, ST, E_h) = (2, 0, 1, 0)` on every mesh. -/
def envC : OuterEnv where
  primal := fun _ _ => 5
  estimate := fun _ => ⟨2, 0, 1, 0⟩
  refineUniform := fun m => m + 1
  refineByInd := fun m _ => m + 1
  convergence_test := false
  prob_estimate_error := false

/-- Concrete collaborators with a large spatial error component
`E_h = 5`, driving the refine branch. -/
def envR : OuterEnv where
  primal := fun _ _ => 5
  estimate := fun _ => ⟨2, 0, 1, 5⟩
  refineUniform := fun m => m + 1
  refineByInd := fun m _ => m + 1
  convergence_test := false
  prob_estimate_error := false

/-- Parameters with all stages enabled and `tolerance = w_h = 1`. -/
def pC : OuterParams where
  tolerance := 1
  w_h := 1
  solve_primal := true
  solve_dual := true
  estimate_error := true

/-- Parameters with all stages enabled and `tolerance = 3`. -/
def pTol : OuterParams where
  tolerance := 3
  w_h := 1
  solve_primal := true
  solve_dual := true
  estimate_error := true

/-- Parameters with every optional stage disabled and `tolerance = 0`. -/
def pOff : OuterParams where
  tolerance := 0
  w_h := 1
  solve_primal := false
  solve_dual := false
  estimate_error := false

/-- C4 counterexample: with `error = 2 > tolerance = 1` and
`E_h = 0 <= w_h * tolerance`, the iteration loops back (freeze branch)
but `init_meshes` is never called in it, contradicting the claim that
every non-terminating iteration re-initializes the problem meshes. -/
theorem reinit_on_freeze_cex :
    iterIsNext (outerIteration envC pC (outerInit 0)) = true ∧
    Event.initMeshes ∉ iterLogOf (outerIteration envC pC (outerInit 0)) := by
  have herr' : ¬ errorOf envC pC (outerInit 0) ≤ pC.tolerance := by
    norm_num [errorOf, envC, pC, outerInit]
  have hit : outerIteration envC pC (outerInit 0) =
      .next ⟨(outerInit 0).mesh, iterST envC pC (outerInit 0),
        iterGoal envC pC (outerInit 0), some (envC.estimate 0)⟩
        (iterLog1 pC ++ [Event.saveMesh]) := by
    simp only [outerIteration, if_neg herr', iterEst]
    norm_num [envC, pC, outerInit]
  rw [hit]
  refine ⟨rfl, ?_⟩
  intro h
  simp only [iterLogOf, List.mem_append, List.mem_singleton] at h
  rcases h with h | h
  · exact initMeshes_not_mem_iterLog1 pC h
  · cases h

/-- Witness for C1: with `error = 2 <= tolerance = 3` on the first
iteration, the run returns the single primal solve's goal functional
without refining or saving a mesh. -/
theorem outer_stop_on_convergence_app :
    (∀ s : OuterState, errorOf envC pTol s ≤ pTol.tolerance →
      ∃ g log, outerIteration envC pTol s = .done g log ∧
        Event.saveMesh ∉ log ∧ Event.initMeshes ∉ log ∧
        Event.refineUniform ∉ log ∧ Event.refineByIndicators ∉ log) ∧
    ∃ log, fsiSolve envC pTol (0 + 1) 0 =
        .returns (some (envC.primal 0 1)) log ∧
      log.count Event.primalSolve = 1 ∧
      Event.refineUniform ∉ log ∧ Event.refineByIndicators ∉ log ∧
      Event.initMeshes ∉ log ∧ Event.saveMesh ∉ log :=
  outer_stop_on_convergence envC pTol 0 0 rfl
    (by norm_num [errorOf, envC, pTol, outerInit])

/-- Witness for C7: with estimation disabled and `tolerance = 0`, the
run stops at the first check and reports the skipped stage
informationally. -/
theorem outer_estimate_disabled_app :
    errorOf envC pOff (outerInit 0) = 0 ∧
    ∃ g log, fsiSolve envC pOff (0 + 1) 0 = .returns g log ∧
      Event.infoNoEstimate ∈ log ∧ Event.estimateError ∉ log ∧
      Event.saveMesh ∉ log ∧ Event.initMeshes ∉ log ∧
      Event.refineUniform ∉ log ∧ Event.refineByIndicators ∉ log :=
  outer_estimate_disabled envC pOff 0 0 rfl (by norm_num [pOff])

/-- Witness for C5: the freeze branch taken at the concrete estimate
`(2, 0, 1, 0)` with `tolerance = w_h = 1`. -/
theorem outer_freeze_mesh_app :
    ∃ s' log, outerIteration envC pC (outerInit 0) = .next s' log ∧
      s'.mesh = (outerInit 0).mesh ∧
      Event.refineUniform ∉ log ∧ Event.refineByIndicators ∉ log :=
  outer_freeze_mesh envC pC (outerInit 0) rfl
    (by norm_num [envC, pC, outerInit])
    (by norm_num [envC, pC, outerInit])

/-- Witness for C4 (amended): the refine branch taken at the concrete
estimate `(2, 0, 1, 5)` persists the mesh last and re-initializes the
problem meshes. -/
theorem outer_persist_and_reinit_app :
    ∃ s' log, outerIteration envR pC (outerInit 0) = .next s' log ∧
      log.getLast? = some Event.saveMesh ∧
      ((envR.estimate (outerInit 0).mesh).E_h ≤ pC.w_h * pC.tolerance →
        Event.initMeshes ∉ log ∧ s'.mesh = (outerInit 0).mesh) ∧
      (pC.w_h * pC.tolerance < (envR.estimate (outerInit 0).mesh).E_h →
        Event.initMeshes ∈ log) :=
  outer_persist_and_reinit envR pC (outerInit 0) rfl
    (by norm_num [envR, pC, outerInit])

/-- Witness for C10: a terminating run with `solve_primal = False`
returns `None` and never performed a primal solve. -/
theorem no_primal_returns_none_app :
    (none : Option ℚ) = none ∧ Event.primalSolve ∉
      [Event.infoNoPrimal, Event.infoNoDual, Event.infoNoEstimate] :=
  no_primal_returns_none envC pOff 1 0 none
    [Event.infoNoPrimal, Event.infoNoDual, Event.infoNoEstimate] rfl
    (by
      rw [fsiSolve, outerLoop_done envC pOff 0 _ _ _ _
        (outerIteration_done envC pOff _ (by norm_num [errorOf, pOff]))]
      simp [iterGoal, iterLog1, pOff, outerInit])

/-! ## Mesh to fluid transfer (subproblems.py, `FluidProblem`)

`update_mesh_displacement(U_M, dt, num_smoothings)` sets
`x1[i][j] = X[i][j] + dofs[j*N + i]` for every vertex `i < N` and
coordinate `j < dim` of the deformed mesh `omega_F1`, calls
`omega_F1.smooth(num_smoothings)` (modelled as `num_smoothings`
applications of a one-pass smoothing operator on the coordinate field),
recomputes the mesh velocity `wx[j*N + i] = (x1[i][j] - x0[i][j]) / dt`
from the smoothed coordinates and the previously committed coordinates
`x0` of `omega_F0`, and finally calls `solver.reassemble()`.
`update_extra` copies `omega_F1`'s coordinates into `omega_F0` after a
commit. -/

/-- Coordinate field of a mesh: vertex index and space dimension to
coordinate value. -/
abbrev Coords := ℕ → ℕ → ℚ

/-- State owned by the fluid adapter: reference coordinates `X` of
`Omega_F`, previously committed coordinates `x0` of `omega_F0`, current
deformed coordinates `x1` of `omega_F1`, the flattened mesh-velocity
dof vector `w`, and whether the solver operator has been reassembled. -/
structure FluidMeshState where
  X : Coords
  x0 : Coords
  x1 : Coords
  w : ℕ → ℚ
  reassembled : Bool

/-- Pointwise assignment `c[i][j] = v` on a coordinate field. -/
def updC (c : Coords) (i j : ℕ) (v : ℚ) : Coords :=
  fun a b => if a = i ∧ b = j then v else c a b

/-- Pointwise assignment `f[k] = v` on a flattened dof vector. -/
def updFn (f : ℕ → ℚ) (k : ℕ) (v : ℚ) : ℕ → ℚ :=
  fun a => if a = k then v else f a

/-- The double loop `for i in range(N): for j in range(dim):
x1[i][j] = X[i][j] + dofs[j*N + i]` of `update_mesh_displacement`. -/
def deformedCoords (N dim : ℕ) (st : FluidMeshState) (dofs : ℕ → ℚ) :
    Coords :=
  (List.range N).foldl (fun c i =>
    (List.range dim).foldl (fun c j =>
      updC c i j (st.X i j + dofs (j * N + i))) c) st.x1

/-- The double loop `for i in range(N): for j in range(dim):
wx[j*N + i] = (x1[i][j] - x0[i][j]) / dt` of
`update_mesh_displacement`, run after smoothing. -/
def meshVelocity (N dim : ℕ) (x1 x0 : Coords) (w : ℕ → ℚ) (dt : ℚ) :
    ℕ → ℚ :=
  (List.range N).foldl (fun f i =>
    (List.range dim).foldl (fun f j =>
      updFn f (j * N + i) ((x1 i j - x0 i j) / dt)) f) w

/-- `FluidProblem.update_mesh_displacement(U_M, dt, num_smoothings)`:
deform the mesh by the displacement dofs, smooth, recompute the mesh
velocity from the smoothed and the previously committed coordinates,
and mark the operator for reassembly. -/
def update_mesh_displacement (N dim : ℕ) (sm : Coords → Coords)
    (st : FluidMeshState) (U_M : ℕ → ℚ) (dt : ℚ)
    (num_smoothings : ℕ) : FluidMeshState :=
  let x1s := sm^[num_smoothings] (deformedCoords N dim st U_M)
  { st with x1 := x1s,
            w := meshVelocity N dim x1s st.x0 st.w dt,
            reassembled := true }

/-- `FluidProblem.update_extra()`: copy the deformed coordinates into
the committed coordinate array `omega_F0`. -/
def update_extra (st : FluidMeshState) : FluidMeshState :=
  { st with x0 := st.x1 }

lemma foldl_updC_ne_row (l : List ℕ) (i a b : ℕ) (v : ℕ → ℚ)
    (h : a ≠ i) :
    ∀ c : Coords, (l.foldl (fun c j => updC c i j (v j)) c) a b = c a b := by
  induction l with
  | nil => intro c; rfl
  | cons x xs ih =>
    intro c
    rw [List.foldl_cons, ih (updC c i x (v x))]
    simp [updC, h]

lemma foldl_updC_row_lookup (i b : ℕ) (v : ℕ → ℚ) :
    ∀ d : ℕ, b < d → ∀ c : Coords,
      ((List.range d).foldl (fun c j => updC c i j (v j)) c) i b = v b := by
  intro d
  induction d with
  | zero => intro hb; exact absurd hb (Nat.not_lt_zero b)
  | succ d ih =>
    intro hb c
    rw [List.range_succ, List.foldl_append, List.foldl_cons, List.foldl_nil]
    by_cases h : b = d
    · subst h; simp [updC]
    · have hb' : b < d := by omega
      simp only [updC]
      rw [if_neg (by simp [h] : ¬ (True ∧ b = d))]
      exact ih hb' c

lemma deformedCoords_lookup (N dim : ℕ) (st : FluidMeshState)
    (dofs : ℕ → ℚ) (a b : ℕ) (ha : a < N) (hb : b < dim) :
    deformedCoords N dim st dofs a b = st.X a b + dofs (b * N + a) := by
  rw [deformedCoords]
  suffices h : ∀ m : ℕ, a < m → ∀ c : Coords,
      ((List.range m).foldl (fun c i =>
        (List.range dim).foldl (fun c j =>
          updC c i j (st.X i j + dofs (j * N + i))) c) c) a b =
        st.X a b + dofs (b * N + a) from h N ha st.x1
  intro m
  induction m with
  | zero => intro ha'; exact absurd ha' (Nat.not_lt_zero a)
  | succ m ih =>
    intro ha' c
    rw [List.range_succ, List.foldl_append, List.foldl_cons, List.foldl_nil]
    by_cases h : a = m
    · subst h
      exact foldl_updC_row_lookup a b (fun j => st.X a j + dofs (j * N + a))
        dim hb _
    · rw [foldl_updC_ne_row (List.range dim) m a b
        (fun j => st.X m j + dofs (j * N + m)) h]
      exact ih (by omega) c

lemma foldl_updFn_ne (l : List ℕ) (key : ℕ → ℕ) (v : ℕ → ℚ) (k : ℕ)
    (hk : ∀ j ∈ l, key j ≠ k) :
    ∀ f : ℕ → ℚ, (l.foldl (fun f j => updFn f (key j) (v j)) f) k = f k := by
  induction l with
  | nil => intro f; rfl
  | cons x xs ih =>
    intro f
    rw [List.foldl_cons, ih (fun j hj => hk j (List.mem_cons_of_mem _ hj))]
    simp only [updFn]
    rw [if_neg (fun h => hk x (List.mem_cons_self _ _) h.symm)]

lemma foldl_updFn_row_lookup (i N : ℕ) (v : ℕ → ℚ) (b : ℕ)
    (hN : 0 < N) :
    ∀ d : ℕ, b < d → ∀ f : ℕ → ℚ,
      ((List.range d).foldl (fun f j => updFn f (j * N + i) (v j)) f)
        (b * N + i) = v b := by
  intro d
  induction d with
  | zero => intro hb; exact absurd hb (Nat.not_lt_zero b)
  | succ d ih =>
    intro hb f
    rw [List.range_succ, List.foldl_append, List.foldl_cons, List.foldl_nil]
    by_cases h : b = d
    · subst h; simp [updFn]
    · have hb' : b < d := by omega
      simp only [updFn, if_neg (by
        intro heq
        have : b * N = d * N := by omega
        exact h (Nat.eq_of_mul_eq_mul_right hN this) :
          ¬ b * N + i = d * N + i)]
      exact ih hb' f

lemma meshVelocity_lookup (N dim : ℕ) (x1 x0 : Coords) (w : ℕ → ℚ)
    (dt : ℚ) (i j : ℕ) (hi : i < N) (hj : j < dim) :
    meshVelocity N dim x1 x0 w dt (j * N + i) = (x1 i j - x0 i j) / dt := by
  have hN : 0 < N := by omega
  rw [meshVelocity]
  suffices h : ∀ m : ℕ, i < m → m ≤ N → ∀ f : ℕ → ℚ,
      ((List.range m).foldl (fun f a =>
        (List.range dim).foldl (fun f b =>
          updFn f (b * N + a) ((x1 a b - x0 a b) / dt)) f) f)
        (j * N + i) = (x1 i j - x0 i j) / dt from
    h N hi le_rfl w
  intro m
  induction m with
  | zero => intro hi'; exact absurd hi' (Nat.not_lt_zero i)
  | succ m ih =>
    intro hi' hm f
    rw [List.range_succ, List.foldl_append, List.foldl_cons, List.foldl_nil]
    by_cases h : i = m
    · subst h
      exact foldl_updFn_row_lookup i N
        (fun b => (x1 i b - x0 i b) / dt) j hN dim hj _
    · have hkeys : ∀ b ∈ List.range dim, b * N + m ≠ j * N + i := by
        intro b _ heq
        have hmod : (b * N + m) % N = (j * N + i) % N := by rw [heq]
        rw [Nat.add_comm (b * N) m, Nat.add_mul_mod_self_right,
          Nat.add_comm (j * N) i, Nat.add_mul_mod_self_right,
          Nat.mod_eq_of_lt (by omega), Nat.mod_eq_of_lt hi] at hmod
        exact h hmod.symm
      rw [foldl_updFn_ne (List.range dim) (fun b => b * N + m)
        (fun b => (x1 m b - x0 m b) / dt) (j * N + i) hkeys]
      exact ih (by omega) (by omega) f

/-- C9: `update_mesh_displacement` sets the deformed coordinates to
reference coordinates plus the displacement dofs (in the `j*N + i`
layout), applies `num_smoothings` smoothing passes, recomputes each
mesh-velocity dof as the difference quotient of the smoothed new
coordinates against the previously committed coordinates divided by
`dt`, and reassembles the solver operator; `update_extra` then commits
the smoothed coordinates. -/
theorem update_mesh_displacement_spec (N dim : ℕ) (sm : Coords → Coords)
    (st : FluidMeshState) (U_M : ℕ → ℚ) (dt : ℚ) (ns : ℕ) (i j : ℕ)
    (hi : i < N) (hj : j < dim) :
    (∀ a b, a < N → b < dim →
      deformedCoords N dim st U_M a b = st.X a b + U_M (b * N + a)) ∧
    (update_mesh_displacement N dim sm st U_M dt ns).x1 =
      sm^[ns] (deformedCoords N dim st U_M) ∧
    (update_mesh_displacement N dim sm st U_M dt ns).w (j * N + i) =
      ((update_mesh_displacement N dim sm st U_M dt ns).x1 i j -
        st.x0 i j) / dt ∧
    (update_mesh_displacement N dim sm st U_M dt ns).reassembled = true ∧
    (update_extra (update_mesh_displacement N dim sm st U_M dt ns)).x0 =
      (update_mesh_displacement N dim sm st U_M dt ns).x1 := by
  refine ⟨fun a b ha hb => deformedCoords_lookup N dim st U_M a b ha hb,
    rfl, ?_, rfl, rfl⟩
  exact meshVelocity_lookup N dim (sm^[ns] (deformedCoords N dim st U_M))
    st.x0 st.w dt i j hi hj

/-- Concrete fluid-mesh state for the C9 witness. -/
def stW : FluidMeshState where
  X := fun a b => a + 2 * b
  x0 := fun _ _ => 0
  x1 := fun _ _ => 0
  w := fun _ => 0
  reassembled := false

/-- Witness for C9: the transfer contract instantiated on a 2-vertex,
2-dimensional mesh with identity smoothing at vertex 1, coordinate 1. -/
theorem update_mesh_displacement_spec_app :
    (∀ a b, a < 2 → b < 2 →
      deformedCoords 2 2 stW (fun k => k) a b =
        stW.X a b + ((b * 2 + a : ℕ) : ℚ)) ∧
    (update_mesh_displacement 2 2 id stW (fun k => k) 1 3).x1 =
      id^[3] (deformedCoords 2 2 stW (fun k => k)) ∧
    (update_mesh_displacement 2 2 id stW (fun k => k) 1 3).w (1 * 2 + 1) =
      ((update_mesh_displacement 2 2 id stW (fun k => k) 1 3).x1 1 1 -
        stW.x0 1 1) / 1 ∧
    (update_mesh_displacement 2 2 id stW (fun k => k) 1 3).reassembled =
      true ∧
    (update_extra (update_mesh_displacement 2 2 id stW
      (fun k => k) 1 3)).x0 =
      (update_mesh_displacement 2 2 id stW (fun k => k) 1 3).x1 :=
  update_mesh_displacement_spec 2 2 id stW (fun k => k) 1 3 1 1
    (by norm_num) (by norm_num)

end FSI
